import Mathlib

/-!
# Verification of the DDSP synthesizer and model wrapper

Shallow embedding of `ddsp/synths.py` (`Additive.get_controls`,
`FilteredNoise.get_controls`) and `ddsp/training/model.py` (`Model`),
with theorems settling the specification claims about them.

Tensors of shape `[batch, time, channels]` are embedded as functions
`ℕ → ℕ → ℚ` (trailing dimension 1 folded away) or `ℕ → ℕ → Fin K → ℚ`
(trailing dimension `K`, the harmonic / filter-bank axis, which is the
only axis that is ever reduced over).  Machine floats are modelled by
exact rationals; the one place the code can produce a non-finite float
(division by a zero reduction-sum) is modelled explicitly by `safeDiv`,
which returns `none` exactly when IEEE division of finite operands
returns a NaN or an infinity (zero denominator).
-/

namespace DDSP

/-! ## Synthesizers (`ddsp/synths.py`) -/

/-- Configuration state of `Additive.__init__` (synths.py lines 33-43).
Source defaults: `n_samples=64000`, `sample_rate=16000`,
`amp_scale_fn=core.exp_sigmoid`, `normalize_below_nyquist=True`.
`amp_scale_fn` is an arbitrary configurable elementwise map (`None`
allowed); the default `core.exp_sigmoid` lives outside this excerpt and
is kept abstract. -/
structure AdditiveCfg where
  n_samples : ℕ
  sample_rate : ℚ
  amp_scale_fn : Option (ℚ → ℚ)
  normalize_below_nyquist : Bool

/-- Elementwise application of the configured amplitude-scaling function:
the `if self.amp_scale_fn is not None` branch of `get_controls`
(synths.py lines 62-67); identity when the function is `None`. -/
def applyScale (fn : Option (ℚ → ℚ)) (x : ℚ) : ℚ :=
  match fn with
  | some f => f x
  | none => x

/-- Modelled from the spec: `core.get_harmonic_frequencies` (core.py is
not part of this excerpt).  "compute harmonic frequencies as
`f0_hz * harmonic_index` for harmonic_index = 1..K". -/
def get_harmonic_frequencies (f0_hz : ℕ → ℕ → ℚ) (K : ℕ) :
    ℕ → ℕ → Fin K → ℚ :=
  fun b t k => f0_hz b t * ((k : ℕ) + 1)

/-- Modelled from the spec: `core.remove_above_nyquist` (core.py is not
part of this excerpt).  "zero out any harmonic-distribution entry whose
harmonic frequency exceeds half the sample rate, for every
batch/frame/harmonic position independently". -/
def remove_above_nyquist {K : ℕ} (frequencies amplitudes : ℕ → ℕ → Fin K → ℚ)
    (sample_rate : ℚ) : ℕ → ℕ → Fin K → ℚ :=
  fun b t k => if frequencies b t k > sample_rate / 2 then 0 else amplitudes b t k

/-- The scaled and (when `normalize_below_nyquist` is set) bandlimited
harmonic distribution: the value of the Python variable
`harmonic_distribution` just before the normalization step
(synths.py lines 62-76). -/
def Additive.bandlimited {K : ℕ} (cfg : AdditiveCfg)
    (nn_out_harmonic_distribution : ℕ → ℕ → Fin K → ℚ)
    (f0_hz : ℕ → ℕ → ℚ) : ℕ → ℕ → Fin K → ℚ :=
  let harmonic_distribution := fun b t k =>
    applyScale cfg.amp_scale_fn (nn_out_harmonic_distribution b t k)
  if cfg.normalize_below_nyquist then
    remove_above_nyquist (get_harmonic_frequencies f0_hz K)
      harmonic_distribution cfg.sample_rate
  else
    harmonic_distribution

/-- IEEE-float division of finite operands, tracking non-finiteness:
`safeDiv x d` is `none` exactly when the float quotient would be NaN
(`0/0`) or an infinity (`x/0`, `x ≠ 0`), i.e. when `d = 0`. -/
def safeDiv (x d : ℚ) : Option ℚ :=
  if d = 0 then none else some (x / d)

/-- The control dictionary returned by `Additive.get_controls`
(synths.py lines 83-86): keys `amplitudes`, `harmonic_distribution`,
`f0_hz`.  `harmonic_distribution` entries are `Option ℚ` because the
normalizing division can produce a non-finite float. -/
structure AdditiveControls (K : ℕ) where
  amplitudes : ℕ → ℕ → ℚ
  harmonic_distribution : ℕ → ℕ → Fin K → Option ℚ
  f0_hz : ℕ → ℕ → ℚ

/-- `Additive.get_controls` (synths.py lines 45-86): scale the
amplitudes and the harmonic distribution with `amp_scale_fn` (if
configured), bandlimit the distribution below Nyquist (if configured),
then normalize it by its sum over the harmonic axis
(`harmonic_distribution /= tf.reduce_sum(harmonic_distribution, axis=-1,
keepdims=True)`), and return the control dictionary. -/
def Additive.get_controls {K : ℕ} (cfg : AdditiveCfg)
    (nn_out_amplitudes : ℕ → ℕ → ℚ)
    (nn_out_harmonic_distribution : ℕ → ℕ → Fin K → ℚ)
    (f0_hz : ℕ → ℕ → ℚ) : AdditiveControls K :=
  let amplitudes := fun b t => applyScale cfg.amp_scale_fn (nn_out_amplitudes b t)
  let hd := Additive.bandlimited cfg nn_out_harmonic_distribution f0_hz
  { amplitudes := amplitudes
    harmonic_distribution := fun b t k => safeDiv (hd b t k) (∑ j, hd b t j)
    f0_hz := f0_hz }

/-- Configuration state of `FilteredNoise.__init__` (synths.py lines
116-126).  Source defaults: `n_samples=64000`, `window_size=257`,
`amp_scale_fn=core.exp_sigmoid`, `noise_fade_fn=None`. -/
structure FilteredNoiseCfg where
  n_samples : ℕ
  window_size : ℕ
  amp_scale_fn : Option (ℚ → ℚ)
  noise_fade_fn : Option (ℕ → ℚ)

/-- The control dictionary returned by `FilteredNoise.get_controls`
(synths.py line 143): single key `magnitudes`. -/
structure FilteredNoiseControls where
  magnitudes : ℕ → ℕ → ℕ → ℚ

/-- `FilteredNoise.get_controls` (synths.py lines 128-144): apply
`amp_scale_fn` elementwise to the network outputs if configured,
otherwise pass them through, and return `{'magnitudes': magnitudes}`. -/
def FilteredNoise.get_controls (cfg : FilteredNoiseCfg)
    (nn_outputs : ℕ → ℕ → ℕ → ℚ) : FilteredNoiseControls :=
  { magnitudes := fun b t c => applyScale cfg.amp_scale_fn (nn_outputs b t c) }

/-- The ambient random stream of the process (TensorFlow's global
randomness).  The only operation in synths.py that reads it is
`tf.random_uniform` inside `FilteredNoise.get_signal`; the control
derivations never touch it. -/
def Rng : Type := ℕ → ℚ

/-- `Additive.get_controls` as executed in a process whose ambient
random stream is `rng`: the body contains no random operation, so the
stream is not consumed. -/
def Additive.get_controls_with_rng {K : ℕ} (_rng : Rng) (cfg : AdditiveCfg)
    (nn_out_amplitudes : ℕ → ℕ → ℚ)
    (nn_out_harmonic_distribution : ℕ → ℕ → Fin K → ℚ)
    (f0_hz : ℕ → ℕ → ℚ) : AdditiveControls K :=
  Additive.get_controls cfg nn_out_amplitudes nn_out_harmonic_distribution f0_hz

/-- `FilteredNoise.get_controls` as executed in a process whose ambient
random stream is `rng`: the body contains no random operation, so the
stream is not consumed (unlike `FilteredNoise.get_signal`, which draws
`tf.random_uniform` noise from it). -/
def FilteredNoise.get_controls_with_rng (_rng : Rng) (cfg : FilteredNoiseCfg)
    (nn_outputs : ℕ → ℕ → ℕ → ℚ) : FilteredNoiseControls :=
  FilteredNoise.get_controls cfg nn_outputs

/-! ## Model wrapper (`ddsp/training/model.py`) -/

/-- Python exceptions that the modelled code paths can raise, plus the
two error classes named by the specification (which appear nowhere in
the code). -/
inductive PyError where
  /-- `TypeError` from calling `None` (e.g. `self.decoder(conditioning)`
  with `decoder=None`). -/
  | typeErrorNoneNotCallable : PyError
  /-- `AttributeError` from attribute access on `None` (e.g.
  `self.processor_group.get_outputs` with `processor_group=None`). -/
  | attributeErrorNone : PyError
  /-- `TypeError` from subscripting a non-mapping value. -/
  | typeErrorNotSubscriptable : PyError
  /-- `KeyError` on a missing dictionary key. -/
  | keyError : String → PyError
  /-- `ValueError` raised by `tf.train.Saver.restore` when the
  `save_path` argument is `None`. -/
  | valueErrorRestoreNone : PyError
  /-- `MisconfiguredModelError`: named by the spec, absent from the code. -/
  | misconfiguredModelError : PyError
  /-- `CheckpointNotFoundError`: named by the spec, absent from the code. -/
  | checkpointNotFoundError : PyError
deriving DecidableEq

/-- Heterogeneous dictionary values: tensors (over an abstract tensor
type `T`), scalar loss values, and nested dictionaries (the
per-processor sub-dictionaries inside the outputs dictionary). -/
inductive Val (T : Type) where
  | tensor : T → Val T
  | scalar : ℚ → Val T
  | dict : List (String × Val T) → Val T

/-- A Python dict with string keys, as an insertion-ordered association
list. -/
abbrev TDict (V : Type) : Type := List (String × V)

/-- Python dict assignment `d[k] = v`: replace in place if the key is
present (insertion order kept), append otherwise. -/
def setKey {V : Type} : TDict V → String → V → TDict V
  | [], k, v => [(k, v)]
  | (k', v') :: rest, k, v =>
      if k' = k then (k, v) :: rest else (k', v') :: setKey rest k v

/-- Python `d.update(ex)`: assign every entry of `ex` into `d`, in
order. -/
def dictUpdate {V : Type} (d ex : TDict V) : TDict V :=
  ex.foldl (fun acc kv => setKey acc kv.1 kv.2) d

/-- Python subscript `v[k]` on a dictionary value: `KeyError` if the key
is missing, `TypeError` if `v` is not a dict. -/
def Val.subscript {T : Type} (v : Val T) (k : String) : Except PyError (Val T) :=
  match v with
  | .dict d =>
      match List.lookup k d with
      | some w => .ok w
      | none => .error (.keyError k)
  | _ => .error .typeErrorNotSubscriptable

/-- A trainable variable, identified (as in `tf.trainable_variables`)
by its name. -/
structure Variable where
  name : String
deriving DecidableEq

/-- A loss object's `pretrained_model` handle: exposes its own
`trainable_variables()` collection. -/
structure PretrainedModel where
  trainable_variables : List Variable
deriving DecidableEq

/-- A loss object: callable on (target audio, generated audio), with a
`name` attribute and an optional `pretrained_model` handle. -/
structure LossObj (T : Type) where
  name : String
  fn : Val T → Val T → ℚ
  pretrained_model : Option PretrainedModel

/-- The processor group collaborator: a `name` attribute and
`get_outputs(conditioning) -> outputs` mapping a conditioning dict to an
outputs dict. -/
structure ProcessorGroup (T : Type) where
  name : String
  get_outputs : TDict (Val T) → TDict (Val T)

/-- The `Model` state after `__init__` (model.py lines 39-54):
preprocessor (the `or DefaultPreprocessor()` default is an external
collaborator, kept abstract), optional encoder, decoder and
processor_group exactly as passed (`None` allowed — `__init__` performs
no validation and never raises), and the loss sequence.  The
`tb_metrics` side-channel is not modelled: it never affects the
returned outputs. -/
structure Model (T : Type) where
  preprocessor : TDict (Val T) → Bool → TDict (Val T)
  encoder : Option (TDict (Val T) → TDict (Val T))
  decoder : Option (TDict (Val T) → TDict (Val T))
  processor_group : Option (ProcessorGroup T)
  losses : List (LossObj T)

/-- `if self.encoder is not None: conditioning = self.encoder(conditioning)`
(model.py lines 66-68). -/
def encApply {T : Type} (enc : Option (TDict (Val T) → TDict (Val T)))
    (conditioning : TDict (Val T)) : TDict (Val T) :=
  match enc with
  | some e => e conditioning
  | none => conditioning

/-- One iteration of the loss loop (model.py lines 83-88):
`loss_term = loss_obj(features['audio'], audio_gen)`;
`total_loss += loss_term`; `loss_dict['losses/<name>'] = loss_term`.
`features['audio']` is looked up inside the loop, so an absent key only
raises when at least one loss runs. -/
def lossStep {T : Type} (features : TDict (Val T)) (audio_gen : Val T)
    (acc : ℚ × TDict (Val T)) (loss_obj : LossObj T) :
    Except PyError (ℚ × TDict (Val T)) :=
  match List.lookup "audio" features with
  | some audio =>
      let loss_term := loss_obj.fn audio audio_gen
      .ok (acc.1 + loss_term,
           setKey acc.2 ("losses/" ++ loss_obj.name) (Val.scalar loss_term))
  | none => .error (.keyError "audio")

/-- `Model.get_outputs` (model.py lines 59-96): preprocess, encode (if
an encoder is present), decode, run the processor group, extract
`audio_gen = outputs[processor_group.name]['signal']` and store it
under `'audio_gen'`, accumulate the losses in declaration order into
`total_loss` and `loss_dict`, merge `loss_dict` into `outputs`, and set
`outputs['total_loss']`.  Calling the absent decoder raises `TypeError`;
attribute access on an absent processor group raises `AttributeError`. -/
def Model.get_outputs {T : Type} (m : Model T) (features : TDict (Val T))
    (is_training : Bool) : Except PyError (TDict (Val T)) := do
  let conditioning := m.preprocessor features is_training
  let conditioning := encApply m.encoder conditioning
  let conditioning ← match m.decoder with
    | some dec => Except.ok (dec conditioning)
    | none => Except.error PyError.typeErrorNoneNotCallable
  let pg ← match m.processor_group with
    | some pg => Except.ok pg
    | none => Except.error PyError.attributeErrorNone
  let outputs := pg.get_outputs conditioning
  let audio_gen ← match List.lookup pg.name outputs with
    | some v => v.subscript "signal"
    | none => Except.error (PyError.keyError pg.name)
  let outputs := setKey outputs "audio_gen" audio_gen
  let acc ← m.losses.foldlM (lossStep features audio_gen) ((0 : ℚ), ([] : TDict (Val T)))
  let outputs := dictUpdate outputs acc.2
  let outputs := setKey outputs "total_loss" (Val.scalar acc.1)
  return outputs

/-- `Model.pretrained_models` (model.py lines 98-105): the
`pretrained_model` of every loss that has one, in loss order. -/
def Model.pretrained_models {T : Type} (m : Model T) : List PretrainedModel :=
  m.losses.filterMap (fun loss_obj => loss_obj.pretrained_model)

/-- `Model.get_variables_to_optimize` (model.py lines 120-137): collect
the names of every pretrained model's trainable variables and keep,
from the global trainable collection, exactly the variables whose name
is not among them. -/
def Model.get_variables_to_optimize {T : Type} (m : Model T)
    (all_trainables : List Variable) : List Variable :=
  let vars_to_freeze := (m.pretrained_models).foldl
    (fun acc pm => acc ++ pm.trainable_variables) []
  let var_names_to_freeze := vars_to_freeze.map (fun x => x.name)
  all_trainables.filter (fun x => ! var_names_to_freeze.contains x.name)

/-- The checkpoint environment `Model.restore` runs against: the path
expansion primitives (`os.path.expandvars`, `os.path.expanduser`) and
`tf.train.latest_checkpoint`, which returns `None` when the directory
contains no checkpoint. -/
structure CheckpointEnv where
  expandvars : String → String
  expanduser : String → String
  latest_checkpoint : String → Option String

/-- `tf.train.Saver.restore(sess, save_path)`: raises
`ValueError("Can't load save_path when it is None.")` when `save_path`
is `None`; otherwise loads the checkpoint (modelled as success). -/
def saver_restore (save_path : Option String) : Except PyError Unit :=
  match save_path with
  | none => .error .valueErrorRestoreNone
  | some _ => .ok ()

/-- `Model.restore` (model.py lines 170-184): expand user and
environment shorthand in `checkpoint_dir`, find the latest checkpoint
there, and restore it with a `Saver` over the optimizable variables
(the `Saver` construction does not affect the failure behaviour
modelled here). -/
def Model.restore (env : CheckpointEnv) (checkpoint_dir : String) :
    Except PyError Unit :=
  let checkpoint_path := env.expanduser (env.expandvars checkpoint_dir)
  let checkpoint := env.latest_checkpoint checkpoint_path
  saver_restore checkpoint

/-- The pure content of one loss-loop iteration (what `lossStep`
computes once the `features['audio']` lookup is known to succeed with
value `audio`): accumulate the loss term and record it under
`'losses/<name>'`. -/
def lossStepP {T : Type} (audio audio_gen : Val T)
    (acc : ℚ × TDict (Val T)) (loss_obj : LossObj T) : ℚ × TDict (Val T) :=
  (acc.1 + loss_obj.fn audio audio_gen,
   setKey acc.2 ("losses/" ++ loss_obj.name) (Val.scalar (loss_obj.fn audio audio_gen)))

/-- A minimal fully configured model over `T = ℚ`: identity
preprocessor, no encoder, identity decoder, a processor group named
`pg` whose output holds a `signal`, and two distinctly named losses
with constant values 1 and 2. -/
def witnessModel : Model ℚ :=
  { preprocessor := fun f _ => f
    encoder := none
    decoder := some (fun c => c)
    processor_group := some
      { name := "pg"
        get_outputs := fun _ => [("pg", Val.dict [("signal", Val.tensor 5)])] }
    losses := [{ name := "a", fn := fun _ _ => 1, pretrained_model := none },
               { name := "b", fn := fun _ _ => 2, pretrained_model := none }] }

/-- The same model with two losses that share the name `a` (values 1
and 2). -/
def dupLossModel : Model ℚ :=
  { preprocessor := fun f _ => f
    encoder := none
    decoder := some (fun c => c)
    processor_group := some
      { name := "pg"
        get_outputs := fun _ => [("pg", Val.dict [("signal", Val.tensor 5)])] }
    losses := [{ name := "a", fn := fun _ _ => 1, pretrained_model := none },
               { name := "a", fn := fun _ _ => 2, pretrained_model := none }] }

/-- Features dictionary holding the target audio. -/
def witnessFeatures : TDict (Val ℚ) := [("audio", Val.tensor 0)]

/-- A model with a single loss that carries a pretrained model owning
the variable named `vgg/w` (a dummy transfer-learning sub-model). -/
def frozenVarModel : Model ℚ :=
  { preprocessor := fun f _ => f
    encoder := none
    decoder := none
    processor_group := none
    losses := [{ name := "spectral"
                 fn := fun _ _ => 0
                 pretrained_model := some { trainable_variables := [{ name := "vgg/w" }] } }] }

/-! ## Theorems for the synthesizer claims -/

/-- C1: the claim asks that `Additive.get_controls` produce no NaN/Inf
in `harmonic_distribution` when every harmonic frequency exceeds
Nyquist.  The code divides by the reduction sum, which is zero there:
at `sample_rate = 16000`, `f0_hz = 9000`, two harmonics (9000 Hz and
18000 Hz, both above the 8000 Hz Nyquist frequency), every
`harmonic_distribution` entry is the non-finite float `0/0` (modelled
as `none`). -/
theorem C1_degenerate_normalization_is_nonfinite :
    (Additive.get_controls (K := 2) ⟨64000, 16000, none, true⟩
        (fun _ _ => 1) (fun _ _ _ => 1)
        (fun _ _ => 9000)).harmonic_distribution 0 0 0 = none ∧
    (Additive.get_controls (K := 2) ⟨64000, 16000, none, true⟩
        (fun _ _ => 1) (fun _ _ _ => 1)
        (fun _ _ => 9000)).harmonic_distribution 0 0 1 = none := by
  have hz : ∀ k : Fin 2, Additive.bandlimited (K := 2)
      ⟨64000, 16000, none, true⟩ (fun _ _ _ => 1) (fun _ _ => 9000) 0 0 k = 0 := by
    intro k
    fin_cases k <;>
      norm_num [Additive.bandlimited, remove_above_nyquist,
        get_harmonic_frequencies, applyScale]
  have hsum : ∑ j, Additive.bandlimited (K := 2) ⟨64000, 16000, none, true⟩
      (fun _ _ _ => 1) (fun _ _ => 9000) 0 0 j = 0 :=
    Finset.sum_eq_zero (fun k _ => hz k)
  constructor <;> simp [Additive.get_controls, safeDiv, hsum, hz]

/-- C2: wherever the pre-normalization sum over the harmonic axis is
nonzero, every `harmonic_distribution` entry returned by
`Additive.get_controls` is the finite quotient of the bandlimited entry
by that sum, and the entries sum to exactly 1 over the harmonic axis. -/
theorem C2_harmonic_distribution_sums_to_one {K : ℕ} (cfg : AdditiveCfg)
    (a : ℕ → ℕ → ℚ) (hd : ℕ → ℕ → Fin K → ℚ) (f0 : ℕ → ℕ → ℚ) (b t : ℕ)
    (hS : ∑ j, Additive.bandlimited cfg hd f0 b t j ≠ 0) :
    (∀ k, (Additive.get_controls cfg a hd f0).harmonic_distribution b t k =
        some (Additive.bandlimited cfg hd f0 b t k /
          ∑ j, Additive.bandlimited cfg hd f0 b t j)) ∧
    ∑ k, ((Additive.get_controls cfg a hd f0).harmonic_distribution b t k).getD 0
      = 1 := by
  have h1 : ∀ k, (Additive.get_controls cfg a hd f0).harmonic_distribution b t k =
      some (Additive.bandlimited cfg hd f0 b t k /
        ∑ j, Additive.bandlimited cfg hd f0 b t j) := by
    intro k
    simp [Additive.get_controls, safeDiv, hS]
  refine ⟨h1, ?_⟩
  calc ∑ k, ((Additive.get_controls cfg a hd f0).harmonic_distribution b t k).getD 0
      = ∑ k, Additive.bandlimited cfg hd f0 b t k /
          ∑ j, Additive.bandlimited cfg hd f0 b t j := by
        refine Finset.sum_congr rfl (fun k _ => ?_)
        rw [h1 k]
        rfl
    _ = (∑ k, Additive.bandlimited cfg hd f0 b t k) /
          ∑ j, Additive.bandlimited cfg hd f0 b t j := by
        rw [Finset.sum_div]
    _ = 1 := div_self hS

/-- Witness for C2 at `sample_rate = 16000`, `f0_hz = 100`, two
harmonics, no scaling function: both harmonics survive bandlimiting,
the pre-normalization sum is 2 ≠ 0, and the normalized distribution
sums to 1. -/
theorem C2_harmonic_distribution_sums_to_one_witness :
    (∑ j, Additive.bandlimited (K := 2) ⟨64000, 16000, none, true⟩
        (fun _ _ _ => 1) (fun _ _ => 100) 0 0 j ≠ 0) ∧
    ∑ k, ((Additive.get_controls (K := 2) ⟨64000, 16000, none, true⟩
        (fun _ _ => 1) (fun _ _ _ => 1)
        (fun _ _ => 100)).harmonic_distribution 0 0 k).getD 0 = 1 := by
  have hS : ∑ j, Additive.bandlimited (K := 2) ⟨64000, 16000, none, true⟩
      (fun _ _ _ => 1) (fun _ _ => 100) 0 0 j ≠ 0 := by
    rw [Fin.sum_univ_two]
    norm_num [Additive.bandlimited, remove_above_nyquist,
      get_harmonic_frequencies, applyScale]
  exact ⟨hS, (C2_harmonic_distribution_sums_to_one ⟨64000, 16000, none, true⟩
    (fun _ _ => 1) (fun _ _ _ => 1) (fun _ _ => 100) 0 0 hS).2⟩

/-- C3: with `normalize_below_nyquist` set, the bandlimiting step of
`Additive.get_controls` zeroes exactly the harmonic-distribution
entries whose harmonic frequency `f0_hz * (k+1)` exceeds half the
sample rate, and leaves every entry at or below half the sample rate at
its scaled value (the subsequent renormalization then divides all
entries by the common sum). -/
theorem C3_bandlimit_above_nyquist {K : ℕ} (cfg : AdditiveCfg)
    (hd : ℕ → ℕ → Fin K → ℚ) (f0 : ℕ → ℕ → ℚ) (b t : ℕ) (k : Fin K)
    (hnorm : cfg.normalize_below_nyquist = true) :
    (f0 b t * ((k : ℕ) + 1) > cfg.sample_rate / 2 →
      Additive.bandlimited cfg hd f0 b t k = 0) ∧
    (f0 b t * ((k : ℕ) + 1) ≤ cfg.sample_rate / 2 →
      Additive.bandlimited cfg hd f0 b t k =
        applyScale cfg.amp_scale_fn (hd b t k)) := by
  constructor
  · intro h
    simp [Additive.bandlimited, hnorm, remove_above_nyquist,
      get_harmonic_frequencies, h]
  · intro h
    simp [Additive.bandlimited, hnorm, remove_above_nyquist,
      get_harmonic_frequencies, not_lt.mpr h]

/-- Witness for C3 at `sample_rate = 16000`, `f0_hz = 5000`, two
harmonics, no scaling function: harmonic 1 (5000 Hz ≤ 8000 Hz) is kept
at its value 1, harmonic 2 (10000 Hz > 8000 Hz) is zeroed. -/
theorem C3_bandlimit_above_nyquist_witness :
    Additive.bandlimited (K := 2) ⟨64000, 16000, none, true⟩
      (fun _ _ _ => 1) (fun _ _ => 5000) 0 0 0 = 1 ∧
    Additive.bandlimited (K := 2) ⟨64000, 16000, none, true⟩
      (fun _ _ _ => 1) (fun _ _ => 5000) 0 0 1 = 0 := by
  constructor
  · have h := (C3_bandlimit_above_nyquist (K := 2) ⟨64000, 16000, none, true⟩
      (fun _ _ _ => 1) (fun _ _ => 5000) 0 0 0 rfl).2 (by norm_num)
    simpa [applyScale] using h
  · exact (C3_bandlimit_above_nyquist (K := 2) ⟨64000, 16000, none, true⟩
      (fun _ _ _ => 1) (fun _ _ => 5000) 0 0 1 rfl).1 (by norm_num)

/-- C8 counterexample: the claim says the control paths fail with
`InvalidControlError` on non-positive controls when `amp_scale_fn` is
`None`; in fact both `Additive.get_controls` and
`FilteredNoise.get_controls` return normally and pass the non-positive
value `-1` through unchanged. -/
theorem C8_no_validation_counterexample :
    (Additive.get_controls (K := 1) ⟨64000, 16000, none, false⟩
      (fun _ _ => -1) (fun _ _ _ => 1) (fun _ _ => 100)).amplitudes 0 0 = -1 ∧
    ((-1 : ℚ) ≤ 0) ∧
    (FilteredNoise.get_controls ⟨64000, 257, none, none⟩
      (fun _ _ _ => -1)).magnitudes 0 0 0 = -1 := by
  exact ⟨rfl, by norm_num, rfl⟩

/-- C8 amended: when `amp_scale_fn` is `None`, the amplitude and
magnitude controls are returned exactly as given — no validation is
performed and no error is raised; positivity of unscaled inputs is the
caller's responsibility (as documented in the `get_signal`
docstrings). -/
theorem C8_passthrough_when_unscaled {K : ℕ} (cfg : AdditiveCfg)
    (cfgN : FilteredNoiseCfg) (a : ℕ → ℕ → ℚ) (hd : ℕ → ℕ → Fin K → ℚ)
    (f0 : ℕ → ℕ → ℚ) (nn : ℕ → ℕ → ℕ → ℚ)
    (hA : cfg.amp_scale_fn = none) (hN : cfgN.amp_scale_fn = none) :
    (Additive.get_controls cfg a hd f0).amplitudes = a ∧
    (FilteredNoise.get_controls cfgN nn).magnitudes = nn := by
  constructor
  · funext b t
    simp [Additive.get_controls, applyScale, hA]
  · funext b t c
    simp [FilteredNoise.get_controls, applyScale, hN]

/-- Witness for the amended C8: a configuration with `amp_scale_fn =
None` passes a negative amplitude tensor through unchanged. -/
theorem C8_passthrough_when_unscaled_witness :
    (Additive.get_controls (K := 1) ⟨64000, 16000, none, false⟩
      (fun _ _ => -1) (fun _ _ _ => 1) (fun _ _ => 100)).amplitudes
        = (fun _ _ => -1) ∧
    (FilteredNoise.get_controls ⟨64000, 257, none, none⟩
      (fun _ _ _ => -1)).magnitudes = (fun _ _ _ => -1) :=
  C8_passthrough_when_unscaled (K := 1) ⟨64000, 16000, none, false⟩
    ⟨64000, 257, none, none⟩ (fun _ _ => -1) (fun _ _ _ => 1)
    (fun _ _ => 100) (fun _ _ _ => -1) rfl rfl

/-! ## Theorems for the model-wrapper claims -/

/-- Membership in the accumulating concatenation of the pretrained
models' variable collections (`vars_to_freeze += m.trainable_variables()`
loop of `get_variables_to_optimize`). -/
theorem mem_foldl_append_trainables (l : List PretrainedModel)
    (acc : List Variable) (y : Variable) :
    y ∈ l.foldl (fun acc pm => acc ++ pm.trainable_variables) acc ↔
      y ∈ acc ∨ ∃ pm ∈ l, y ∈ pm.trainable_variables := by
  induction l generalizing acc with
  | nil => simp
  | cons pm rest ih =>
      simp only [List.foldl_cons, ih, List.mem_append, List.mem_cons]
      constructor
      · rintro (⟨h | h⟩ | ⟨pm', hpm', h⟩)
        · exact Or.inl h
        · exact Or.inr ⟨pm, Or.inl rfl, h⟩
        · exact Or.inr ⟨pm', Or.inr hpm', h⟩
      · rintro (h | ⟨pm', hpm' | hpm', h⟩)
        · exact Or.inl (Or.inl h)
        · exact Or.inl (Or.inr (hpm' ▸ h))
        · exact Or.inr ⟨pm', hpm', h⟩

/-- C5: `get_variables_to_optimize` returns exactly the globally
trainable variables whose name does not occur among the trainable
variables of any loss's `pretrained_model`: every excluded variable is
name-matched against some pretrained variable, and every other
trainable variable is kept. -/
theorem C5_variables_to_optimize_excludes_pretrained {T : Type}
    (m : Model T) (all_trainables : List Variable) (x : Variable) :
    x ∈ m.get_variables_to_optimize all_trainables ↔
      x ∈ all_trainables ∧
        ∀ pm ∈ m.pretrained_models, ∀ v ∈ pm.trainable_variables,
          v.name ≠ x.name := by
  have hvars : ∀ y : Variable,
      y ∈ m.pretrained_models.foldl
          (fun acc pm => acc ++ pm.trainable_variables) [] ↔
        ∃ pm ∈ m.pretrained_models, y ∈ pm.trainable_variables := by
    intro y
    simpa using mem_foldl_append_trainables m.pretrained_models [] y
  simp only [Model.get_variables_to_optimize, List.mem_filter,
    Bool.not_eq_true']
  refine and_congr_right (fun _ => ?_)
  rw [← Bool.not_eq_true, List.elem_iff]
  simp only [List.mem_map, hvars]
  push_neg
  constructor
  · intro h pm hpm v hv
    exact h v ⟨pm, hpm, hv⟩
  · rintro h v ⟨pm, hpm, hv⟩
    exact h pm hpm v hv

/-- Witness for C5: against the global trainables `enc/w` and `vgg/w`,
a model whose loss carries a pretrained model owning `vgg/w` keeps
`enc/w` and drops the name-matched `vgg/w`. -/
theorem C5_variables_to_optimize_excludes_pretrained_witness :
    Variable.mk "enc/w" ∈ frozenVarModel.get_variables_to_optimize
      [Variable.mk "enc/w", Variable.mk "vgg/w"] ∧
    Variable.mk "vgg/w" ∉ frozenVarModel.get_variables_to_optimize
      [Variable.mk "enc/w", Variable.mk "vgg/w"] := by
  constructor
  · exact (C5_variables_to_optimize_excludes_pretrained frozenVarModel
      [Variable.mk "enc/w", Variable.mk "vgg/w"] (Variable.mk "enc/w")).mpr
      ⟨by decide, by decide⟩
  · intro hmem
    have h := (C5_variables_to_optimize_excludes_pretrained frozenVarModel
      [Variable.mk "enc/w", Variable.mk "vgg/w"] (Variable.mk "vgg/w")).mp hmem
    exact h.2 { trainable_variables := [{ name := "vgg/w" }] } (by decide)
      (Variable.mk "vgg/w") (by decide) rfl

/-- C6 counterexample: in an environment whose directory contains no
checkpoint, `Model.restore` fails with the generic `ValueError` that
`tf.train.Saver.restore` raises on a `None` path — not with the
`CheckpointNotFoundError` the claim names (no such error exists in the
code). -/
theorem C6_restore_error_is_not_CheckpointNotFound :
    Model.restore ⟨id, id, fun _ => none⟩ "~/ckpts" =
      Except.error PyError.valueErrorRestoreNone ∧
    PyError.valueErrorRestoreNone ≠ PyError.checkpointNotFoundError := by
  exact ⟨rfl, by decide⟩

/-- C6 amended: when `latest_checkpoint` finds nothing in the expanded
checkpoint directory (user and environment shorthand expanded first),
`Model.restore` does not silently succeed — it fails, with the generic
`ValueError` raised by `Saver.restore` on a `None` path. -/
theorem C6_restore_fails_without_checkpoint (env : CheckpointEnv)
    (checkpoint_dir : String)
    (h : env.latest_checkpoint
        (env.expanduser (env.expandvars checkpoint_dir)) = none) :
    Model.restore env checkpoint_dir =
      Except.error PyError.valueErrorRestoreNone := by
  simp [Model.restore, saver_restore, h]

/-- Witness for the amended C6: an environment with identity path
expansion and no checkpoints anywhere. -/
theorem C6_restore_fails_without_checkpoint_witness :
    CheckpointEnv.latest_checkpoint ⟨id, id, fun _ => none⟩
      (CheckpointEnv.expanduser ⟨id, id, fun _ => none⟩
        (CheckpointEnv.expandvars ⟨id, id, fun _ => none⟩ "~/ckpts")) = none ∧
    Model.restore ⟨id, id, fun _ => none⟩ "~/ckpts" =
      Except.error PyError.valueErrorRestoreNone :=
  ⟨rfl, C6_restore_fails_without_checkpoint ⟨id, id, fun _ => none⟩ "~/ckpts" rfl⟩

/-- C7 counterexample: a `Model` built with `decoder=None` (or with
`processor_group=None`) is constructed without complaint, and its first
`get_outputs` call fails with the generic Python `TypeError` (resp.
`AttributeError`) — not with the `MisconfiguredModelError` the claim
names (no such error exists in the code). -/
theorem C7_missing_collaborator_error_is_generic :
    Model.get_outputs (T := ℚ) ⟨fun f _ => f, none, none, none, []⟩ [] true =
      Except.error PyError.typeErrorNoneNotCallable ∧
    PyError.typeErrorNoneNotCallable ≠ PyError.misconfiguredModelError ∧
    Model.get_outputs (T := ℚ) ⟨fun f _ => f, none, some id, none, []⟩ [] true =
      Except.error PyError.attributeErrorNone ∧
    PyError.attributeErrorNone ≠ PyError.misconfiguredModelError :=
  ⟨rfl, by decide, rfl, by decide⟩

/-- C7 amended: construction performs no validation (any combination of
`None` collaborators yields a `Model` value), and the missing
collaborator is only hit on the first `get_outputs` call, which then
fails — with a generic `TypeError` (calling the absent decoder) or
`AttributeError` (attribute access on the absent processor group), not
a dedicated `MisconfiguredModelError`. -/
theorem C7_missing_collaborator_fails_on_first_use {T : Type}
    (m : Model T) (features : TDict (Val T)) (is_training : Bool) :
    (m.decoder = none →
      m.get_outputs features is_training =
        Except.error PyError.typeErrorNoneNotCallable) ∧
    (∀ dec, m.decoder = some dec → m.processor_group = none →
      m.get_outputs features is_training =
        Except.error PyError.attributeErrorNone) := by
  constructor
  · intro h
    simp only [Model.get_outputs, h]
    rfl
  · intro dec hdec hpg
    simp only [Model.get_outputs, hdec, hpg]
    rfl

/-- Witness for the amended C7 on concrete misconfigured models. -/
theorem C7_missing_collaborator_fails_on_first_use_witness :
    ((⟨fun f _ => f, none, none, none, []⟩ : Model ℚ).decoder = none ∧
      Model.get_outputs (T := ℚ) ⟨fun f _ => f, none, none, none, []⟩ [] true =
        Except.error PyError.typeErrorNoneNotCallable) ∧
    ((⟨fun f _ => f, none, some id, none, []⟩ : Model ℚ).processor_group = none ∧
      Model.get_outputs (T := ℚ) ⟨fun f _ => f, none, some id, none, []⟩ [] true =
        Except.error PyError.attributeErrorNone) :=
  ⟨⟨rfl, (C7_missing_collaborator_fails_on_first_use
      (⟨fun f _ => f, none, none, none, []⟩ : Model ℚ) [] true).1 rfl⟩,
   ⟨rfl, (C7_missing_collaborator_fails_on_first_use
      (⟨fun f _ => f, none, some id, none, []⟩ : Model ℚ) [] true).2 id rfl rfl⟩⟩

/-- Binding a successful `Except` computation applies the continuation. -/
theorem except_ok_bind {ε α β : Type} (a : α) (f : α → Except ε β) :
    (Except.ok (ε := ε) a >>= f) = f a :=
  rfl

/-- Mapping over a successful `Except` computation applies the function. -/
theorem except_map_ok {ε α β : Type} (a : α) (f : α → β) :
    (f <$> Except.ok (ε := ε) a) = Except.ok (ε := ε) (f a) :=
  rfl

/-- Association-list lookup finds the head entry when the keys agree. -/
theorem lookup_cons_self {V : Type} (a : String) (c : V) (es : TDict V) :
    List.lookup a ((a, c) :: es) = some c := by
  simp [List.lookup]

/-- Association-list lookup skips the head entry when the keys differ. -/
theorem lookup_cons_ne {V : Type} (a b : String) (c : V) (es : TDict V)
    (h : a ≠ b) :
    List.lookup a ((b, c) :: es) = List.lookup a es := by
  have hb : (a == b) = false := beq_eq_false_iff_ne.mpr h
  simp [List.lookup, hb]

/-- Python dict assignment: the assigned key reads back the new value. -/
theorem lookup_setKey_self {V : Type} (d : TDict V) (k : String) (v : V) :
    List.lookup k (setKey d k v) = some v := by
  induction d with
  | nil => exact lookup_cons_self k v []
  | cons kv rest ih =>
      obtain ⟨k', v'⟩ := kv
      by_cases h : k' = k
      · subst h
        simp only [setKey, if_pos rfl]
        exact lookup_cons_self k' v rest
      · simp only [setKey, if_neg h]
        rw [lookup_cons_ne k k' v' _ (Ne.symm h)]
        exact ih

/-- Python dict assignment: other keys are unaffected. -/
theorem lookup_setKey_ne {V : Type} (d : TDict V) (k k' : String) (v : V)
    (h : k' ≠ k) :
    List.lookup k' (setKey d k v) = List.lookup k' d := by
  induction d with
  | nil =>
      show List.lookup k' [(k, v)] = List.lookup k' []
      rw [lookup_cons_ne k' k v [] h]
  | cons kv rest ih =>
      obtain ⟨k₀, v₀⟩ := kv
      by_cases h0 : k₀ = k
      · subst h0
        have hs : setKey ((k₀, v₀) :: rest) k₀ v = (k₀, v) :: rest := by
          simp [setKey]
        rw [hs, lookup_cons_ne k' k₀ v rest h, lookup_cons_ne k' k₀ v₀ rest h]
      · simp only [setKey, if_neg h0]
        by_cases h1 : k' = k₀
        · subst h1
          rw [lookup_cons_self, lookup_cons_self]
        · rw [lookup_cons_ne k' k₀ v₀ _ h1, lookup_cons_ne k' k₀ v₀ rest h1]
          exact ih

/-- Assigning a key that is not present appends the new entry. -/
theorem setKey_of_fresh {V : Type} (d : TDict V) (k : String) (v : V)
    (h : ∀ kv ∈ d, kv.1 ≠ k) :
    setKey d k v = d ++ [(k, v)] := by
  induction d with
  | nil => rfl
  | cons kv rest ih =>
      obtain ⟨k', v'⟩ := kv
      have hk : k' ≠ k := h (k', v') (List.mem_cons_self _ _)
      simp only [setKey, if_neg hk, List.cons_append, List.cons.injEq, true_and]
      exact ih (fun kv hkv => h kv (List.mem_cons_of_mem _ hkv))

/-- `dict.update` leaves keys that do not occur in the merged
dictionary unchanged. -/
theorem lookup_dictUpdate_of_fresh {V : Type} (ex : TDict V) (d : TDict V)
    (k : String) (h : ∀ kv ∈ ex, kv.1 ≠ k) :
    List.lookup k (dictUpdate d ex) = List.lookup k d := by
  induction ex generalizing d with
  | nil => rfl
  | cons kv rest ih =>
      have h1 : List.lookup k (dictUpdate (setKey d kv.1 kv.2) rest) =
          List.lookup k (setKey d kv.1 kv.2) :=
        ih _ (fun kv' h' => h kv' (List.mem_cons_of_mem _ h'))
      have h2 : List.lookup k (setKey d kv.1 kv.2) = List.lookup k d :=
        lookup_setKey_ne _ _ _ _ (Ne.symm (h kv (List.mem_cons_self _ _)))
      exact h1.trans h2

/-- `dict.update` makes a merged key (unique in the merged dictionary)
read back its merged value. -/
theorem lookup_dictUpdate_of_mem {V : Type} (ex : TDict V) (d : TDict V)
    (k : String) (v : V) (hnd : (ex.map Prod.fst).Nodup)
    (hmem : (k, v) ∈ ex) :
    List.lookup k (dictUpdate d ex) = some v := by
  induction ex generalizing d with
  | nil => cases hmem
  | cons kv rest ih =>
      obtain ⟨k₀, v₀⟩ := kv
      have hstep : dictUpdate d ((k₀, v₀) :: rest) =
          dictUpdate (setKey d k₀ v₀) rest := rfl
      rw [hstep]
      have hk0 : k₀ ∉ rest.map Prod.fst := (List.nodup_cons.mp hnd).1
      rcases List.mem_cons.mp hmem with heq | hmem'
      · have hkeq : k = k₀ := congrArg Prod.fst heq
        have hveq : v = v₀ := congrArg Prod.snd heq
        subst hkeq
        subst hveq
        have hfresh : ∀ kv' ∈ rest, kv'.1 ≠ k := by
          intro kv' h' hc
          exact hk0 (hc ▸ List.mem_map_of_mem Prod.fst h')
        rw [lookup_dictUpdate_of_fresh rest _ k hfresh]
        exact lookup_setKey_self _ _ _
      · exact ih (setKey d k₀ v₀) (List.nodup_cons.mp hnd).2 hmem'

/-- When `features['audio']` is present, the effectful loss loop is the
pure fold of `lossStepP` and never raises. -/
theorem lossFoldM_eq {T : Type} (losses : List (LossObj T))
    (features : TDict (Val T)) (audio_gen audio : Val T)
    (acc : ℚ × TDict (Val T))
    (h : List.lookup "audio" features = some audio) :
    losses.foldlM (lossStep features audio_gen) acc =
      Except.ok (losses.foldl (lossStepP audio audio_gen) acc) := by
  induction losses generalizing acc with
  | nil => rfl
  | cons l rest ih =>
      rw [List.foldlM_cons, List.foldl_cons]
      have hstep : lossStep features audio_gen acc l =
          Except.ok (lossStepP audio audio_gen acc l) := by
        simp [lossStep, lossStepP, h]
      rw [hstep, except_ok_bind]
      exact ih _

/-- The accumulator of the loss loop is the left fold of the loss terms
in declaration order, independent of the dictionary component. -/
theorem lossFold_fst {T : Type} (losses : List (LossObj T))
    (audio audio_gen : Val T) (q0 : ℚ) (d0 : TDict (Val T)) :
    (losses.foldl (lossStepP audio audio_gen) (q0, d0)).1 =
      losses.foldl (fun q l => q + l.fn audio audio_gen) q0 := by
  induction losses generalizing q0 d0 with
  | nil => rfl
  | cons l rest ih =>
      rw [List.foldl_cons, List.foldl_cons]
      exact ih _ _

/-- With pairwise distinct loss names, the loss loop builds exactly one
`'losses/<name>'` entry per loss, appended in declaration order. -/
theorem lossFold_snd {T : Type} (losses : List (LossObj T))
    (audio audio_gen : Val T) (q0 : ℚ) (d0 : TDict (Val T))
    (hdisj : ∀ kv ∈ d0, ∀ l ∈ losses, kv.1 ≠ "losses/" ++ l.name)
    (hnd : (losses.map (fun l => "losses/" ++ l.name)).Nodup) :
    (losses.foldl (lossStepP audio audio_gen) (q0, d0)).2 =
      d0 ++ losses.map
        (fun l => ("losses/" ++ l.name, Val.scalar (l.fn audio audio_gen))) := by
  induction losses generalizing q0 d0 with
  | nil => simp
  | cons l rest ih =>
      rw [List.foldl_cons]
      have hfresh : ∀ kv ∈ d0, kv.1 ≠ "losses/" ++ l.name :=
        fun kv hkv => hdisj kv hkv l (List.mem_cons_self _ _)
      have hset : setKey d0 ("losses/" ++ l.name)
          (Val.scalar (l.fn audio audio_gen)) =
          d0 ++ [("losses/" ++ l.name, Val.scalar (l.fn audio audio_gen))] :=
        setKey_of_fresh _ _ _ hfresh
      have hhead : ("losses/" ++ l.name) ∉ rest.map (fun l => "losses/" ++ l.name) :=
        (List.nodup_cons.mp hnd).1
      have hdisj' : ∀ kv ∈ d0 ++ [("losses/" ++ l.name,
          Val.scalar (l.fn audio audio_gen))], ∀ l' ∈ rest,
          kv.1 ≠ "losses/" ++ l'.name := by
        intro kv hkv l' hl'
        rcases List.mem_append.mp hkv with hkv | hkv
        · exact hdisj kv hkv l' (List.mem_cons_of_mem _ hl')
        · have hkv' : kv = ("losses/" ++ l.name, Val.scalar (l.fn audio audio_gen)) := by
            simpa using hkv
          rw [hkv']
          intro hc
          have : ("losses/" ++ l.name) ∈ rest.map (fun l => "losses/" ++ l.name) := by
            rw [show ("losses/" ++ l.name) = "losses/" ++ l'.name from hc]
            exact List.mem_map_of_mem _ hl'
          exact hhead this
      have := ih ((0 : ℚ) + l.fn audio audio_gen) _ hdisj' (List.nodup_cons.mp hnd).2
      calc (rest.foldl (lossStepP audio audio_gen)
            (lossStepP audio audio_gen (q0, d0) l)).2
          = (d0 ++ [("losses/" ++ l.name, Val.scalar (l.fn audio audio_gen))]) ++
              rest.map (fun l => ("losses/" ++ l.name,
                Val.scalar (l.fn audio audio_gen))) := by
            have := ih (q0 + l.fn audio audio_gen)
              (setKey d0 ("losses/" ++ l.name) (Val.scalar (l.fn audio audio_gen)))
              (hset ▸ hdisj') (List.nodup_cons.mp hnd).2
            simpa [lossStepP, hset] using this
        _ = d0 ++ (("losses/" ++ l.name, Val.scalar (l.fn audio audio_gen)) ::
              rest.map (fun l => ("losses/" ++ l.name,
                Val.scalar (l.fn audio audio_gen)))) := by
            simp
        _ = d0 ++ (l :: rest).map (fun l => ("losses/" ++ l.name,
              Val.scalar (l.fn audio audio_gen))) := by
            simp

/-- Appending to a fixed string on the left is injective. -/
theorem string_append_left_cancel (s a b : String) (h : s ++ a = s ++ b) :
    a = b := by
  cases a with
  | mk la =>
    cases b with
    | mk lb =>
      have h2 : s.data ++ la = s.data ++ lb := by
        have := congrArg String.data h
        simpa [String.data_append] using this
      have h3 : la = lb := List.append_cancel_left h2
      rw [h3]

/-- No loss entry key collides with the `audio_gen` key. -/
theorem lossKey_ne_audio_gen (n : String) : "losses/" ++ n ≠ "audio_gen" := by
  intro h
  have h2 : ("losses/" ++ n).data = "audio_gen".data := congrArg String.data h
  rw [String.data_append] at h2
  have h3 : List.head? ("losses/".data ++ n.data) = List.head? "audio_gen".data :=
    congrArg List.head? h2
  simp at h3

/-- No loss entry key collides with the `total_loss` key. -/
theorem lossKey_ne_total_loss (n : String) : "losses/" ++ n ≠ "total_loss" := by
  intro h
  have h2 : ("losses/" ++ n).data = "total_loss".data := congrArg String.data h
  rw [String.data_append] at h2
  have h3 : List.head? ("losses/".data ++ n.data) = List.head? "total_loss".data :=
    congrArg List.head? h2
  simp at h3

/-- C4 amended: for a model whose collaborators are present, whose
processor-group output carries the `signal` entry, whose features carry
`audio`, and whose losses have pairwise distinct names, `get_outputs`
returns a dictionary with `audio_gen` equal to
`outputs[processor_group.name]['signal']`, one `'losses/<name>'` entry
per loss holding `loss(features['audio'], audio_gen)`, and `total_loss`
equal to the left fold of the loss terms in declaration order. -/
theorem C4_outputs_contract {T : Type} (m : Model T)
    (features : TDict (Val T)) (is_training : Bool)
    (dec : TDict (Val T) → TDict (Val T)) (pg : ProcessorGroup T)
    (entry audio_gen audio : Val T)
    (hdec : m.decoder = some dec)
    (hpg : m.processor_group = some pg)
    (hentry : List.lookup pg.name
        (pg.get_outputs (dec (encApply m.encoder
          (m.preprocessor features is_training)))) = some entry)
    (hsig : entry.subscript "signal" = Except.ok audio_gen)
    (haudio : List.lookup "audio" features = some audio)
    (hnd : (m.losses.map (fun l => l.name)).Nodup) :
    ∃ out, m.get_outputs features is_training = Except.ok out ∧
      List.lookup "audio_gen" out = some audio_gen ∧
      (∀ l ∈ m.losses, List.lookup ("losses/" ++ l.name) out =
        some (Val.scalar (l.fn audio audio_gen))) ∧
      List.lookup "total_loss" out =
        some (Val.scalar (m.losses.foldl
          (fun q l => q + l.fn audio audio_gen) 0)) := by
  have hndk : (m.losses.map (fun l => "losses/" ++ l.name)).Nodup := by
    have h1 : ((m.losses.map (fun l => l.name)).map
        (fun n => "losses/" ++ n)).Nodup :=
      hnd.map (fun a b hab => string_append_left_cancel _ a b hab)
    simpa [List.map_map, Function.comp] using h1
  have hsnd : (m.losses.foldl (lossStepP audio audio_gen) (0, [])).2 =
      m.losses.map (fun l => ("losses/" ++ l.name,
        Val.scalar (l.fn audio audio_gen))) := by
    have := lossFold_snd m.losses audio audio_gen 0 []
      (by intro kv hkv; cases hkv) hndk
    simpa using this
  have hfst : (m.losses.foldl (lossStepP audio audio_gen) (0, [])).1 =
      m.losses.foldl (fun q l => q + l.fn audio audio_gen) 0 :=
    lossFold_fst m.losses audio audio_gen 0 []
  have hrun : m.get_outputs features is_training = Except.ok
      (setKey (dictUpdate
          (setKey (pg.get_outputs (dec (encApply m.encoder
            (m.preprocessor features is_training)))) "audio_gen" audio_gen)
          ((m.losses.foldl (lossStepP audio audio_gen) (0, [])).2))
        "total_loss"
        (Val.scalar ((m.losses.foldl (lossStepP audio audio_gen) (0, [])).1))) := by
    simp only [Model.get_outputs, hdec, hpg, except_ok_bind, hentry, hsig,
      lossFoldM_eq m.losses features audio_gen audio _ haudio, except_map_ok]
    rfl
  refine ⟨_, hrun, ?_, ?_, ?_⟩
  · rw [lookup_setKey_ne _ _ _ _ (by decide : "audio_gen" ≠ "total_loss")]
    rw [hsnd, lookup_dictUpdate_of_fresh _ _ _ ?fresh]
    · exact lookup_setKey_self _ _ _
    case fresh =>
      intro kv hkv
      rcases List.mem_map.mp hkv with ⟨l, _, hl⟩
      rw [← hl]
      exact lossKey_ne_audio_gen l.name
  · intro l hl
    rw [lookup_setKey_ne _ _ _ _ (lossKey_ne_total_loss l.name)]
    rw [hsnd, lookup_dictUpdate_of_mem]
    · have hmf : (m.losses.map (fun l => ("losses/" ++ l.name,
          Val.scalar (T := T) (l.fn audio audio_gen)))).map Prod.fst =
          m.losses.map (fun l => "losses/" ++ l.name) := by
        simp [List.map_map, Function.comp]
      rw [hmf]
      exact hndk
    · exact List.mem_map.mpr ⟨l, hl, rfl⟩
  · rw [lookup_setKey_self, hfst]

/-- Witness for the amended C4 on a concrete two-loss model: the
hypotheses hold and the outputs dictionary has the stated entries. -/
theorem C4_outputs_contract_witness :
    (witnessModel.decoder = some (fun c => c) ∧
      List.lookup "audio" witnessFeatures = some (Val.tensor 0) ∧
      (witnessModel.losses.map (fun l => l.name)).Nodup) ∧
    (∃ out, witnessModel.get_outputs witnessFeatures true = Except.ok out ∧
      List.lookup "audio_gen" out = some (Val.tensor 5) ∧
      (∀ l ∈ witnessModel.losses, List.lookup ("losses/" ++ l.name) out =
        some (Val.scalar (l.fn (Val.tensor 0) (Val.tensor 5)))) ∧
      List.lookup "total_loss" out =
        some (Val.scalar (witnessModel.losses.foldl
          (fun q l => q + l.fn (Val.tensor 0) (Val.tensor 5)) 0))) :=
  ⟨⟨rfl, rfl, by simp [witnessModel]⟩,
    C4_outputs_contract witnessModel witnessFeatures true (fun c => c)
      { name := "pg"
        get_outputs := fun _ => [("pg", Val.dict [("signal", Val.tensor 5)])] }
      (Val.dict [("signal", Val.tensor 5)]) (Val.tensor 5) (Val.tensor 0)
      rfl rfl rfl rfl rfl (by simp [witnessModel])⟩

/-- C4 counterexample: with two losses both named `a` (terms 1 and 2),
the single key `losses/a` of the outputs dictionary holds the second
loss's term, so the dictionary does not hold one entry per configured
loss — the first loss's term 1 is overwritten. -/
theorem C4_duplicate_loss_names_counterexample :
    (Model.get_outputs dupLossModel witnessFeatures true).map
      (fun out => List.lookup "losses/a" out) =
      Except.ok (some (Val.scalar 2)) ∧
    Val.scalar (T := ℚ) 2 ≠ Val.scalar 1 := by
  constructor
  · rfl
  · intro h
    injection h with h'
    exact absurd h' (by norm_num)

/-- C9: control derivation is deterministic — running
`Additive.get_controls` and `FilteredNoise.get_controls` with identical
inputs under two (arbitrarily different) ambient random streams yields
identical outputs: their bodies contain no random operation. -/
theorem C9_controls_deterministic {K : ℕ} (rng₁ rng₂ : Rng)
    (cfg : AdditiveCfg) (cfgN : FilteredNoiseCfg) (a : ℕ → ℕ → ℚ)
    (hd : ℕ → ℕ → Fin K → ℚ) (f0 : ℕ → ℕ → ℚ) (nn : ℕ → ℕ → ℕ → ℚ) :
    Additive.get_controls_with_rng rng₁ cfg a hd f0 =
      Additive.get_controls_with_rng rng₂ cfg a hd f0 ∧
    FilteredNoise.get_controls_with_rng rng₁ cfgN nn =
      FilteredNoise.get_controls_with_rng rng₂ cfgN nn :=
  ⟨rfl, rfl⟩

/-- C10: `Additive.get_controls` returns its `f0_hz` argument unchanged
under the key `f0_hz`, for every configuration (any `amp_scale_fn`, any
`normalize_below_nyquist`) and every input. -/
theorem C10_f0_returned_unchanged {K : ℕ} (cfg : AdditiveCfg)
    (a : ℕ → ℕ → ℚ) (hd : ℕ → ℕ → Fin K → ℚ) (f0 : ℕ → ℕ → ℚ) :
    (Additive.get_controls cfg a hd f0).f0_hz = f0 :=
  rfl

end DDSP
